import Mathlib

/-!
Verification of the high-level schema builder in
`datamodel/high/base/schema.go` (package `base`).

The Go source is shallowly embedded: the low-level node types
(`KeyReference`, `ValueReference`, `NodeReference`, `SchemaDynamicValue`,
the low `base.Schema`) are modelled from the spec, since only their use
sites appear in the repository slice; `NewSchema` itself is translated
statement by statement from `schema.go`.  The concurrency of `NewSchema`
(one goroutine per property / composition entry, unbuffered completion
channels, a counting `select` loop) is made explicit through a `Sched`
value describing one possible execution: the per-array arrival orders on
the internal `bChan` channels, how many appends of a composition array
are visible when the main goroutine stops waiting, and the order in
which completion signals are consumed from `polyCompletedChan` and
`propsChan`.  `NewSchema s sched` returns `none` when the awaiting loop
of the Go code blocks forever under that execution.
-/

namespace LibOpenAPI

/-- Modelled from the spec: a pointer to a syntax (yaml) node, carried by the
low-level references for diagnostics; only its nil / non-nil identity matters
here, so it is an optional address. -/
abbrev YamlNode := Option Nat

/-- Modelled from the spec: a pointer to a low-level `base.SchemaProxy`
(the wrapped nested schema reference); opaque to the builder, which never
dereferences it, so only its pointer identity is kept. -/
abbrev LowProxyPtr := Option Nat

/-- Modelled from the spec: `lowmodel.KeyReference[T]`, a parsed map key with
its source node. -/
structure KeyReference (α : Type) where
  Value : α
  KeyNode : YamlNode
deriving DecidableEq, Repr

/-- Modelled from the spec: `lowmodel.ValueReference[T]`, a parsed value with
its source node.  The presence flag of the spec is the value node being
non-nil. -/
structure ValueReference (α : Type) where
  Value : α
  ValueNode : YamlNode
deriving DecidableEq, Repr

/-- Modelled from the spec: `lowmodel.NodeReference[T]`, a parsed value with
key and value source nodes and a presence flag distinguishing an absent field
from a present zero value. -/
structure NodeReference (α : Type) where
  Value : α
  KeyNode : YamlNode
  ValueNode : YamlNode
deriving DecidableEq, Repr

/-- Modelled from the spec: the presence flag of a low-level node; a field is
empty (absent) when it has no source value node. -/
def NodeReference.IsEmpty (n : NodeReference α) : Bool := n.ValueNode.isNone

/-- Modelled from the spec: the presence flag of a `ValueReference`. -/
def ValueReference.present (v : ValueReference α) : Bool := v.ValueNode.isSome

/-- Modelled from the spec: a dialect union field (`SchemaDynamicValue`):
a tagged variant holding either an `A` (3.0 form) or a `B` (3.1 form),
with `N` recording which variant was populated. -/
structure SchemaDynamicValue (α β : Type) where
  N : Nat
  A : α
  B : β
deriving DecidableEq, Repr

/-- Modelled from the spec: the union holds the 3.0 variant. -/
def SchemaDynamicValue.IsA (v : SchemaDynamicValue α β) : Bool := v.N == 0

/-- Modelled from the spec: the union holds the 3.1 variant. -/
def SchemaDynamicValue.IsB (v : SchemaDynamicValue α β) : Bool := v.N == 1

/-- Modelled from the spec: the low-level `base.Schema` consumed by
`NewSchema`, with exactly the fields `schema.go` reads.  Go maps are
modelled as association lists (`Properties`); Go `int64` as `Int`;
the opaque peripheral sub-objects (discriminator, xml, external docs,
extensions, `any`-typed fields) as optional address identities. -/
structure LowSchema where
  Title : NodeReference String
  MultipleOf : NodeReference Int
  Maximum : NodeReference Int
  ExclusiveMaximum : NodeReference (SchemaDynamicValue Bool Int)
  Minimum : NodeReference Int
  ExclusiveMinimum : NodeReference (SchemaDynamicValue Bool Int)
  MaxLength : NodeReference Int
  MinLength : NodeReference Int
  Pattern : NodeReference String
  Format : NodeReference String
  MaxItems : NodeReference Int
  MinItems : NodeReference Int
  UniqueItems : NodeReference Int
  MaxProperties : NodeReference Int
  MinProperties : NodeReference Int
  Type' : NodeReference (SchemaDynamicValue String (List (ValueReference String)))
  AdditionalProperties : NodeReference (Option Nat)
  Description : NodeReference String
  Default : NodeReference (Option Nat)
  Nullable : NodeReference Bool
  ReadOnly : NodeReference Bool
  WriteOnly : NodeReference Bool
  Example : NodeReference (Option Nat)
  Deprecated : NodeReference Bool
  Extensions : List (String × Option Nat)
  Discriminator : NodeReference (Option Nat)
  XML : NodeReference (Option Nat)
  ExternalDocs : NodeReference (Option Nat)
  Required : NodeReference (List (ValueReference String))
  Enum : NodeReference (List (ValueReference String))
  Properties : NodeReference (List (KeyReference String × ValueReference LowProxyPtr))
  AllOf : NodeReference (List (ValueReference LowProxyPtr))
  OneOf : NodeReference (List (ValueReference LowProxyPtr))
  AnyOf : NodeReference (List (ValueReference LowProxyPtr))
  Not : NodeReference (List (ValueReference LowProxyPtr))
  Items : NodeReference (List (ValueReference LowProxyPtr))
deriving DecidableEq, Repr

/-- The high-level `SchemaProxy` built by `NewSchema`.  Its definition is
not in the repository slice; modelled from the spec: it holds the wrapped
low-level node reference (the `schema` field set by the struct literals in
`schema.go`) and, after first materialization, a cached pointer to the
materialized `Schema`, represented by its address identity (`none` = not
yet materialized, which is how every proxy starts, since Go zeroes the
unset fields of a struct literal). -/
structure SchemaProxy where
  schema : NodeReference LowProxyPtr
  rendered : Option Nat
deriving DecidableEq, Repr

/-- The high-level `Schema` struct of `schema.go`.  Go nil-able slices and
maps (`AllOf` .. `Items`, `Properties`) are modelled as `Option`-wrapped
lists so that a nil container is distinguishable from a constructed empty
one; `Type` is renamed `Type'` because `Type` is a Lean keyword. -/
structure Schema where
  SchemaTypeRef : String
  Title : String
  MultipleOf : Int
  Maximum : Int
  ExclusiveMaximumBool : Bool
  ExclusiveMaximum : Int
  Minimum : Int
  ExclusiveMinimum : Int
  ExclusiveMinimumBool : Bool
  MaxLength : Int
  MinLength : Int
  Pattern : String
  Format : String
  MaxItems : Int
  MinItems : Int
  UniqueItems : Int
  MaxProperties : Int
  MinProperties : Int
  Required : List String
  Enum : List String
  Type' : List String
  AllOf : Option (List SchemaProxy)
  OneOf : Option (List SchemaProxy)
  AnyOf : Option (List SchemaProxy)
  Not : Option (List SchemaProxy)
  Items : Option (List SchemaProxy)
  Properties : Option (List (String × SchemaProxy))
  AdditionalProperties : Option Nat
  Description : String
  Default : Option Nat
  Nullable : Bool
  Discriminator : Option Nat
  ReadOnly : Bool
  WriteOnly : Bool
  XML : Option Nat
  ExternalDocs : Option Nat
  Example : Option Nat
  Examples : List (Option Nat)
  Deprecated : Bool
  Extensions : List (String × Option Nat)
  low : LowSchema
deriving DecidableEq, Repr

/-- `GoLow` of `schema.go`: the back-reference to the low-level schema. -/
def Schema.GoLow (s : Schema) : LowSchema := s.low

/-- The five composition collections dispatched by `NewSchema`. -/
inductive CompKind where
  | allOf
  | oneOf
  | anyOf
  | nots
  | items
deriving DecidableEq, Repr, Fintype

/-- The low-level `NodeReference` of a composition collection. -/
def compRef (s : LowSchema) : CompKind → NodeReference (List (ValueReference LowProxyPtr))
  | .allOf => s.AllOf
  | .oneOf => s.OneOf
  | .anyOf => s.AnyOf
  | .nots => s.Not
  | .items => s.Items

/-- The source entries of a composition collection (`schema.X.Value`). -/
def srcComp (s : LowSchema) (k : CompKind) : List (ValueReference LowProxyPtr) :=
  (compRef s k).Value

/-- Whether `NewSchema` dispatches a `buildOutSchema` goroutine for this
collection: the guard `!schema.X.IsEmpty()` of `schema.go`. -/
def dispatched (s : LowSchema) (k : CompKind) : Bool := !(compRef s k).IsEmpty

/-- `totalProps` of `schema.go`: `len(schema.Properties.Value)`. -/
def totalProps (s : LowSchema) : Nat := s.Properties.Value.length

/-- `totalChildren` of `schema.go`:
`len(AllOf.Value) + len(OneOf.Value) + len(AnyOf.Value) + len(Items.Value) + len(Not.Value)`. -/
def totalChildren (s : LowSchema) : Nat :=
  (srcComp s .allOf).length + (srcComp s .oneOf).length + (srcComp s .anyOf).length +
    (srcComp s .items).length + (srcComp s .nots).length

/-- A completion signal consumed by the awaiting `select` loop: either a
`polyCompletedChan` signal from the `buildOutSchema` goroutine of one
composition collection, or a `propsChan` signal from one `buildProps`
goroutine. -/
inductive Ev where
  | poly (k : CompKind)
  | prop
deriving DecidableEq, Repr

/-- Whether a signal arrives on `polyCompletedChan`. -/
def Ev.isPoly : Ev → Bool
  | .poly _ => true
  | .prop => false

/-- Signals on `polyCompletedChan` in a list of consumed signals. -/
def countPoly (l : List Ev) : Nat := l.countP Ev.isPoly

/-- One possible execution of the concurrent part of `NewSchema`:
`arr k` is the order in which the proxies of collection `k` arrive on the
internal `bChan` of its `buildOutSchema` call (a permutation of the source
entries); `obs k` is how many of those appends are visible to the main
goroutine when it stops waiting, for a collection whose completion signal
was not consumed; `arrProps` is the order in which the `buildProps`
goroutines take the mutex; `events` is the order in which completion
signals would be consumed by the awaiting loop. -/
structure Sched where
  arr : CompKind → List (ValueReference LowProxyPtr)
  obs : CompKind → Nat
  arrProps : List (KeyReference String × ValueReference LowProxyPtr)
  events : List Ev

/-- A schedule is an execution that can really happen: arrival orders are
permutations of what was dispatched, visible-append counts do not exceed
what was sent, and the signal sequence contains exactly the signals the
dispatched goroutines send — one `polyCompletedChan` signal per dispatched
composition collection and one `propsChan` signal per property. -/
def Sched.Valid (sch : Sched) (s : LowSchema) : Prop :=
  (∀ k, List.Perm (sch.arr k) (srcComp s k)) ∧
  (∀ k, sch.obs k ≤ (sch.arr k).length) ∧
  List.Perm sch.arrProps s.Properties.Value ∧
  sch.events.count Ev.prop = totalProps s ∧
  (∀ k, sch.events.count (Ev.poly k) = if dispatched s k then 1 else 0)

/-- The awaiting `select` loop of `NewSchema` (lines 215-229 of
`schema.go`): consume the next completion signal, bump the matching
counter, and break out of the loop when `totalProps == completedProps &&
totalChildren == completeChildren`.  Returns how many signals were
consumed before `break allDone`, or `none` when the signal sequence is
exhausted with the loop still blocked in `select` — the Go code then
blocks forever. -/
def awaitRun (tp tc : Nat) : Nat → Nat → List Ev → Option Nat
  | _, _, [] => none
  | cp, cc, e :: rest =>
    match e with
    | .poly _ =>
      if cp == tp && cc + 1 == tc then some 1
      else (awaitRun tp tc cp (cc + 1) rest).map (· + 1)
    | .prop =>
      if cp + 1 == tp && cc == tc then some 1
      else (awaitRun tp tc (cp + 1) cc rest).map (· + 1)

/-- Whether `NewSchema` reaches its final assignments: either the awaiting
phase is skipped (`totalProps+totalChildren > 0` fails) or the loop breaks. -/
def NewSchemaReturns (s : LowSchema) (sch : Sched) : Bool :=
  totalProps s + totalChildren s == 0 ||
    (awaitRun (totalProps s) (totalChildren s) 0 0 sch.events).isSome

/-- The completion signals the awaiting loop actually consumed. -/
def consumedEvents (s : LowSchema) (sch : Sched) : List Ev :=
  if totalProps s + totalChildren s == 0 then []
  else
    match awaitRun (totalProps s) (totalChildren s) 0 0 sch.events with
    | some n => sch.events.take n
    | none => []

/-- `buildSchemaChild` of `schema.go`: wrap one composition entry in a new
`SchemaProxy` carrying the entry's value and value node (no key node, no
materialized schema) and send it on `bChan`. -/
def buildSchemaChild (sch : ValueReference LowProxyPtr) : SchemaProxy :=
  { schema := { Value := sch.Value, KeyNode := none, ValueNode := sch.ValueNode },
    rendered := none }

/-- Whether the completion signal of collection `k` was consumed by the
awaiting loop; channel synchronization makes every append of that
collection visible to the main goroutine in that case. -/
def compDone (s : LowSchema) (sch : Sched) (k : CompKind) : Bool :=
  (consumedEvents s sch).count (Ev.poly k) != 0

/-- The final value of one of the five composition slice variables
(`allOf` .. `items` in `schema.go`): nil (`none`) when no `buildOutSchema`
goroutine was dispatched for it or no append happened; otherwise the
proxies in `bChan` arrival order — all of them when the collection's
completion signal was consumed, else the `obs k` appends that became
visible before the main goroutine stopped waiting. -/
def compResult (s : LowSchema) (sch : Sched) (k : CompKind) : Option (List SchemaProxy) :=
  if dispatched s k then
    match (if compDone s sch k then sch.arr k else (sch.arr k).take (sch.obs k)).map
        buildSchemaChild with
    | [] => none
    | p :: ps => some (p :: ps)
  else none

/-- The proxy built by one `buildProps` goroutine of `schema.go` for one
property entry. -/
def buildPropsEntry (k : KeyReference String) (v : ValueReference LowProxyPtr) : SchemaProxy :=
  { schema := { Value := v.Value, KeyNode := k.KeyNode, ValueNode := v.ValueNode },
    rendered := none }

/-- A Go map insert `props[key] = v` on an association-list model:
replace the binding when the key exists, otherwise add it. -/
def insertGo (m : List (String × SchemaProxy)) (key : String) (v : SchemaProxy) :
    List (String × SchemaProxy) :=
  match m with
  | [] => [(key, v)]
  | (k, w) :: rest => if k = key then (k, v) :: rest else (k, w) :: insertGo rest key v

/-- The shared `props` map after a sequence of `buildProps` inserts. -/
def goMapOfList (l : List (String × SchemaProxy)) : List (String × SchemaProxy) :=
  l.foldl (fun m kv => insertGo m kv.1 kv.2) []

/-- The final value of `s.Properties`: it is only ever assigned inside
`buildProps`, so it stays nil when there are no properties; otherwise the
awaiting loop broke only after all `totalProps` signals were consumed, so
the map holds every insert, performed in mutex-acquisition order. -/
def propsResult (s : LowSchema) (sch : Sched) : Option (List (String × SchemaProxy)) :=
  match s.Properties.Value with
  | [] => none
  | _ :: _ =>
    some (goMapOfList (sch.arrProps.map fun kv => (kv.1.Value, buildPropsEntry kv.1 kv.2)))

/-- The `type` normalization of `schema.go` (lines 90-99): a 3.0 source
contributes its single string, a 3.1 source appends every list entry. -/
def typeNorm (s : LowSchema) : List String :=
  let t1 := if !s.Type'.IsEmpty && s.Type'.Value.IsA then [s.Type'.Value.A] else []
  if !s.Type'.IsEmpty && s.Type'.Value.IsB then t1 ++ s.Type'.Value.B.map (·.Value) else t1

/-- The `Schema` value `NewSchema` hands back when its awaiting loop
breaks.  Scalar and dialect-normalized fields are the straight-line
assignments of lines 58-128 of `schema.go`; the containers come from the
modelled concurrent phase.  `UniqueItems`, `SchemaTypeRef` and `Examples`
are never assigned by the Go code and keep their zero values. -/
def buildResult (s : LowSchema) (sch : Sched) : Schema :=
      { SchemaTypeRef := ""
        Title := s.Title.Value
        MultipleOf := s.MultipleOf.Value
        Maximum := s.Maximum.Value
        ExclusiveMaximumBool :=
          if !s.ExclusiveMaximum.IsEmpty && s.ExclusiveMaximum.Value.IsA then
            s.ExclusiveMaximum.Value.A
          else false
        ExclusiveMaximum :=
          if !s.ExclusiveMaximum.IsEmpty && s.ExclusiveMaximum.Value.IsB then
            s.ExclusiveMaximum.Value.B
          else 0
        Minimum := s.Minimum.Value
        ExclusiveMinimum :=
          if !s.ExclusiveMinimum.IsEmpty && s.ExclusiveMinimum.Value.IsB then
            s.ExclusiveMinimum.Value.B
          else 0
        ExclusiveMinimumBool :=
          if !s.ExclusiveMinimum.IsEmpty && s.ExclusiveMinimum.Value.IsA then
            s.ExclusiveMinimum.Value.A
          else false
        MaxLength := s.MaxLength.Value
        MinLength := s.MinLength.Value
        Pattern := s.Pattern.Value
        Format := s.Format.Value
        MaxItems := s.MaxItems.Value
        MinItems := s.MinItems.Value
        UniqueItems := 0
        MaxProperties := s.MaxProperties.Value
        MinProperties := s.MinProperties.Value
        Required := s.Required.Value.map (·.Value)
        Enum := s.Enum.Value.map (·.Value)
        Type' := typeNorm s
        AllOf := compResult s sch .allOf
        OneOf := compResult s sch .oneOf
        AnyOf := compResult s sch .anyOf
        Not := compResult s sch .nots
        Items := compResult s sch .items
        Properties := propsResult s sch
        AdditionalProperties := s.AdditionalProperties.Value
        Description := s.Description.Value
        Default := s.Default.Value
        Nullable := s.Nullable.Value
        Discriminator := if !s.Discriminator.IsEmpty then s.Discriminator.Value else none
        ReadOnly := s.ReadOnly.Value
        WriteOnly := s.WriteOnly.Value
        XML := if !s.XML.IsEmpty then s.XML.Value else none
        ExternalDocs := if !s.ExternalDocs.IsEmpty then s.ExternalDocs.Value else none
        Example := s.Example.Value
        Examples := []
        Deprecated := s.Deprecated.Value
        Extensions := s.Extensions
        low := s }

/-- `NewSchema` of `schema.go`, under one execution `sch` of its
concurrency: `none` when the awaiting loop blocks forever (the Go call
never returns), otherwise the fully assigned high-level `Schema`. -/
def NewSchema (s : LowSchema) (sch : Sched) : Option Schema :=
  if NewSchemaReturns s sch then some (buildResult s sch) else none

/-- The composition slice of the finished high-level schema for one
composition collection. -/
def schemaComp (h : Schema) : CompKind → Option (List SchemaProxy)
  | .allOf => h.AllOf
  | .oneOf => h.OneOf
  | .anyOf => h.AnyOf
  | .nots => h.Not
  | .items => h.Items

/-- The errors one `buildSchemaChild` call sends on the error channel
wired through `buildOutSchema`: the Go function body only builds a proxy
and sends it on `bChan`; it contains no send into `e chan error`. -/
def buildSchemaChildErrors (_sch : ValueReference LowProxyPtr) : List String := []

/-- The errors one `buildOutSchema` call sends on its error channel
parameter `e`: the collected sends of its children plus its own — and its
own body never sends into `e` either. -/
def buildOutSchemaErrors (schemas : List (ValueReference LowProxyPtr)) : List String :=
  schemas.foldr (fun v acc => buildSchemaChildErrors v ++ acc) []

/-- Everything `NewSchema` ever sends into `errChan`: the error output of
the five dispatched `buildOutSchema` calls (`buildProps` is not even given
the channel). -/
def newSchemaErrors (s : LowSchema) : List String :=
  (if dispatched s .allOf then buildOutSchemaErrors (srcComp s .allOf) else []) ++
    (if dispatched s .anyOf then buildOutSchemaErrors (srcComp s .anyOf) else []) ++
    (if dispatched s .oneOf then buildOutSchemaErrors (srcComp s .oneOf) else []) ++
    (if dispatched s .nots then buildOutSchemaErrors (srcComp s .nots) else []) ++
    (if dispatched s .items then buildOutSchemaErrors (srcComp s .items) else [])

/-- View a possibly-nil Go slice as the list of its elements. -/
def sliceList (o : Option (List SchemaProxy)) : List SchemaProxy := o.getD []

/-- View a possibly-nil Go map as the list of its entries. -/
def mapList (o : Option (List (String × SchemaProxy))) : List (String × SchemaProxy) :=
  o.getD []

/-- An absent low-level node with the given zero value. -/
def absent (a : α) : NodeReference α := { Value := a, KeyNode := none, ValueNode := none }

/-- A present low-level node with the given value. -/
def presentNode (a : α) : NodeReference α := { Value := a, KeyNode := some 0, ValueNode := some 0 }

/-- A low-level schema with every field absent and zero-valued. -/
def lowEmpty : LowSchema where
  Title := absent ""
  MultipleOf := absent 0
  Maximum := absent 0
  ExclusiveMaximum := absent { N := 0, A := false, B := 0 }
  Minimum := absent 0
  ExclusiveMinimum := absent { N := 0, A := false, B := 0 }
  MaxLength := absent 0
  MinLength := absent 0
  Pattern := absent ""
  Format := absent ""
  MaxItems := absent 0
  MinItems := absent 0
  UniqueItems := absent 0
  MaxProperties := absent 0
  MinProperties := absent 0
  Type' := absent { N := 0, A := "", B := [] }
  AdditionalProperties := absent none
  Description := absent ""
  Default := absent none
  Nullable := absent false
  ReadOnly := absent false
  WriteOnly := absent false
  Example := absent none
  Deprecated := absent false
  Extensions := []
  Discriminator := absent none
  XML := absent none
  ExternalDocs := absent none
  Required := absent []
  Enum := absent []
  Properties := absent []
  AllOf := absent []
  OneOf := absent []
  AnyOf := absent []
  Not := absent []
  Items := absent []

/-- The schedule of an execution in which nothing is dispatched. -/
def schedEmpty : Sched where
  arr := fun _ => []
  obs := fun _ => 0
  arrProps := []
  events := []

instance instSchedValidDecidable (sch : Sched) (s : LowSchema) : Decidable (sch.Valid s) := by
  unfold Sched.Valid
  infer_instance

theorem isA_isB_exclusive (v : SchemaDynamicValue α β) (h : v.IsA = true) : v.IsB = false := by
  simp only [SchemaDynamicValue.IsA, beq_iff_eq] at h
  simp [SchemaDynamicValue.IsB, h]

theorem isB_isA_exclusive (v : SchemaDynamicValue α β) (h : v.IsB = true) : v.IsA = false := by
  simp only [SchemaDynamicValue.IsB, beq_iff_eq] at h
  simp [SchemaDynamicValue.IsA, h]

theorem countPoly_cons_poly (k : CompKind) (l : List Ev) :
    countPoly (Ev.poly k :: l) = countPoly l + 1 := by
  simp [countPoly, List.countP_cons, Ev.isPoly]

theorem countPoly_cons_prop (l : List Ev) : countPoly (Ev.prop :: l) = countPoly l := by
  simp [countPoly, List.countP_cons, Ev.isPoly]

theorem length_eq_count (l : List Ev) : l.length = l.count Ev.prop + countPoly l := by
  induction l with
  | nil => rfl
  | cons e rest ih =>
    cases e with
    | poly k =>
      rw [countPoly_cons_poly]
      simp only [List.length_cons, List.count_cons, ih]
      simp [Ev.poly.injEq]
      omega
    | prop =>
      rw [countPoly_cons_prop]
      simp only [List.length_cons, List.count_cons, ih]
      simp
      omega

theorem countPoly_eq_sum (l : List Ev) :
    countPoly l =
      l.count (Ev.poly .allOf) + l.count (Ev.poly .oneOf) + l.count (Ev.poly .anyOf) +
        l.count (Ev.poly .items) + l.count (Ev.poly .nots) := by
  induction l with
  | nil => rfl
  | cons e rest ih =>
    cases e with
    | poly k =>
      rw [countPoly_cons_poly, ih]
      cases k <;> simp [List.count_cons] <;> omega
    | prop =>
      rw [countPoly_cons_prop, ih]
      simp [List.count_cons]

/-- What the awaiting loop guarantees when it breaks: it consumed a prefix of
the signal sequence in which the property-completion count is exactly
`totalProps` and the composition-completion count is exactly `totalChildren`. -/
theorem awaitRun_spec (tp tc : Nat) (l : List Ev) :
    ∀ (cp cc n : Nat), awaitRun tp tc cp cc l = some n →
      n ≤ l.length ∧ (l.take n).count Ev.prop + cp = tp ∧ countPoly (l.take n) + cc = tc := by
  induction l with
  | nil =>
    intro cp cc n h
    simp [awaitRun] at h
  | cons e rest ih =>
    intro cp cc n h
    cases e with
    | poly k =>
      rw [awaitRun] at h
      split at h
      · rename_i hcond
        injection h with hn
        subst hn
        simp only [Bool.and_eq_true, beq_iff_eq] at hcond
        refine ⟨by simp, ?_, ?_⟩
        · simp only [List.take_succ_cons, List.take_zero, List.count_cons, List.count_nil]
          simp [hcond.1]
        · simp only [List.take_succ_cons, List.take_zero, countPoly_cons_poly]
          simp [countPoly]
          omega
      · rename_i hcond
        rw [Option.map_eq_some'] at h
        obtain ⟨m, hm, hmn⟩ := h
        obtain ⟨h1, h2, h3⟩ := ih cp (cc + 1) m hm
        subst hmn
        refine ⟨by simpa using h1, ?_, ?_⟩
        · simp only [List.take_succ_cons, List.count_cons]
          simp [h2]
        · rw [List.take_succ_cons, countPoly_cons_poly]
          omega
    | prop =>
      rw [awaitRun] at h
      split at h
      · rename_i hcond
        injection h with hn
        subst hn
        simp only [Bool.and_eq_true, beq_iff_eq] at hcond
        refine ⟨by simp, ?_, ?_⟩
        · simp only [List.take_succ_cons, List.take_zero, List.count_cons, List.count_nil]
          simp
          omega
        · simp only [List.take_succ_cons, List.take_zero, countPoly_cons_prop]
          simp [countPoly]
          omega
      · rename_i hcond
        rw [Option.map_eq_some'] at h
        obtain ⟨m, hm, hmn⟩ := h
        obtain ⟨h1, h2, h3⟩ := ih (cp + 1) cc m hm
        subst hmn
        refine ⟨by simpa using h1, ?_, ?_⟩
        · simp only [List.take_succ_cons, List.count_cons]
          simp
          omega
        · rw [List.take_succ_cons, countPoly_cons_prop]
          omega

/-- A Go map insert with a fresh key appends the binding. -/
theorem insertGo_fresh (m : List (String × SchemaProxy)) (key : String) (v : SchemaProxy)
    (h : key ∉ m.map Prod.fst) : insertGo m key v = m ++ [(key, v)] := by
  induction m with
  | nil => rfl
  | cons kv rest ih =>
    simp only [List.map_cons, List.mem_cons] at h
    push_neg at h
    rw [insertGo]
    rw [if_neg (by exact fun he => h.1 he.symm)]
    rw [ih h.2]
    rfl

/-- Replaying inserts whose keys are pairwise fresh reproduces the insert
sequence itself. -/
theorem foldl_insertGo_fresh (l : List (String × SchemaProxy)) :
    ∀ acc : List (String × SchemaProxy), ((acc ++ l).map Prod.fst).Nodup →
      l.foldl (fun m kv => insertGo m kv.1 kv.2) acc = acc ++ l := by
  induction l with
  | nil => intro acc _; simp
  | cons kv rest ih =>
    intro acc hnd
    rw [List.foldl_cons]
    have hfresh : kv.1 ∉ acc.map Prod.fst := by
      intro hmem
      rw [List.map_append, List.nodup_append] at hnd
      exact hnd.2.2 hmem (by simp)
    rw [insertGo_fresh acc kv.1 kv.2 hfresh]
    have hnd2 : (((acc ++ [(kv.1, kv.2)]) ++ rest).map Prod.fst).Nodup := by
      have : (acc ++ [(kv.1, kv.2)]) ++ rest = acc ++ kv :: rest := by simp
      rw [this]
      exact hnd
    rw [ih (acc ++ [(kv.1, kv.2)]) hnd2]
    simp

/-- With pairwise-distinct keys the shared `props` map ends up holding
exactly the inserted bindings. -/
theorem goMapOfList_eq_self (l : List (String × SchemaProxy))
    (h : (l.map Prod.fst).Nodup) : goMapOfList l = l := by
  unfold goMapOfList
  have := foldl_insertGo_fresh l [] (by simpa using h)
  simpa using this

/-- Every binding of a Go map came from one of the inserts. -/
theorem mem_insertGo (m : List (String × SchemaProxy)) (key : String) (v : SchemaProxy)
    (kv : String × SchemaProxy) (h : kv ∈ insertGo m key v) : kv ∈ m ∨ kv = (key, v) := by
  induction m with
  | nil => simpa [insertGo] using h
  | cons kw rest ih =>
    rw [insertGo] at h
    split at h
    · rcases List.mem_cons.mp h with h1 | h1
      · rename_i heq
        right
        rw [h1]
        simp [heq]
      · left; exact List.mem_cons_of_mem _ h1
    · rcases List.mem_cons.mp h with h1 | h1
      · left; simp [h1]
      · rcases ih h1 with h2 | h2
        · left; exact List.mem_cons_of_mem _ h2
        · right; exact h2

/-- Every binding of the final `props` map came from one of the `buildProps`
inserts. -/
theorem mem_goMapOfList (l : List (String × SchemaProxy)) (kv : String × SchemaProxy)
    (h : kv ∈ goMapOfList l) : kv ∈ l := by
  unfold goMapOfList at h
  suffices haux : ∀ acc : List (String × SchemaProxy),
      kv ∈ l.foldl (fun m kv => insertGo m kv.1 kv.2) acc → kv ∈ acc ∨ kv ∈ l by
    rcases haux [] h with h1 | h1
    · simp at h1
    · exact h1
  clear h
  induction l with
  | nil => intro acc h; simpa using h
  | cons kw rest ih =>
    intro acc h
    rw [List.foldl_cons] at h
    rcases ih (insertGo acc kw.1 kw.2) h with h1 | h1
    · rcases mem_insertGo acc kw.1 kw.2 kv h1 with h2 | h2
      · exact Or.inl h2
      · right
        simp [h2]
    · right
      exact List.mem_cons_of_mem _ h1

/-- When `NewSchema` returns at all, it returns the joined build result. -/
theorem NewSchema_some (s : LowSchema) (sch : Sched) (h : Schema)
    (hr : NewSchema s sch = some h) : h = buildResult s sch := by
  unfold NewSchema at hr
  split at hr
  · injection hr with h1
    exact h1.symm
  · exact Option.noConfusion hr

/-- A low-level schema whose `allOf` collection holds two entries and whose
other fields are all absent. -/
def sC1 : LowSchema :=
  { lowEmpty with
      AllOf := presentNode [{ Value := some 1, ValueNode := some 10 },
        { Value := some 2, ValueNode := some 20 }] }

/-- The only execution of `NewSchema sC1`: no properties, one dispatched
collection, hence exactly one completion signal. -/
def schedC1 : Sched where
  arr := fun k => match k with | .allOf => sC1.AllOf.Value | _ => []
  obs := fun _ => 0
  arrProps := []
  events := [Ev.poly .allOf]

/-- C1: the claim says `NewSchema` terminates on every input because the
await loop consumes completion signals until the count reaches
`len(properties) + len(allOf) + len(oneOf) + len(anyOf) + len(not) +
len(items)`.  On a schema whose `allOf` holds two entries that expected
total is 2, but `buildOutSchema` sends exactly one `polyCompletedChan`
signal per dispatched collection, so under every valid execution only one
signal ever arrives and the loop blocks forever: `NewSchema` never
returns. -/
theorem C1_allOf_two_entries_never_returns (sch : Sched) (hv : sch.Valid sC1) :
    NewSchema sC1 sch = none := by
  obtain ⟨-, -, -, hprop, hpoly⟩ := hv
  have hp0 : sch.events.count Ev.prop = 0 := hprop.trans (by decide)
  have hlen : sch.events.length = 1 := by
    rw [length_eq_count, hp0, countPoly_eq_sum]
    rw [hpoly .allOf, hpoly .oneOf, hpoly .anyOf, hpoly .items, hpoly .nots]
    decide
  obtain ⟨e, he⟩ := List.length_eq_one.mp hlen
  have hret : NewSchemaReturns sC1 sch = false := by
    unfold NewSchemaReturns
    rw [he]
    cases e with
    | prop =>
      rw [he] at hp0
      simp at hp0
    | poly k => rfl
  unfold NewSchema
  rw [hret]
  rfl

/-- Witness for C1: the canonical execution of `NewSchema sC1` is valid and
indeed never returns. -/
theorem C1_witness : NewSchema sC1 schedC1 = none ∧ schedC1.Valid sC1 :=
  ⟨C1_allOf_two_entries_never_returns schedC1 (by decide), by decide⟩

/-- Nothing is ever folded into the error output of `buildOutSchema`,
because `buildSchemaChild` never sends into the error channel. -/
theorem buildOutSchemaErrors_nil (l : List (ValueReference LowProxyPtr)) :
    buildOutSchemaErrors l = [] := by
  induction l with
  | nil => rfl
  | cons v rest ih =>
    unfold buildOutSchemaErrors at ih ⊢
    rw [List.foldr_cons, ih]
    rfl

/-- C10: `NewSchema` has no failure path — under every input, no value is
ever sent into the error channel wired through the build; the channel is
dead plumbing.  (`NewSchema` itself is a total function into `Schema`
values: it has no error result and absent fields only produce zero-valued
fields.) -/
theorem C10_no_error_path (s : LowSchema) : newSchemaErrors s = [] := by
  unfold newSchemaErrors
  rw [buildOutSchemaErrors_nil, buildOutSchemaErrors_nil, buildOutSchemaErrors_nil,
    buildOutSchemaErrors_nil, buildOutSchemaErrors_nil]
  simp

/-- Counterexample to C3: on the all-absent schema, `NewSchema` does
return, but the `Properties` map and all five composition slices are the
nil zero values of their Go types (`s.Properties` is only ever assigned
inside `buildProps`, which never runs), not present/defined empty
containers as the claim states. -/
theorem C3_empty_input_gives_nil_containers :
    (NewSchema lowEmpty schedEmpty).map
        (fun h => (h.Properties, h.AllOf, h.OneOf, h.AnyOf, h.Not, h.Items)) =
      some (none, none, none, none, none, none) ∧
    schedEmpty.Valid lowEmpty := by
  constructor
  · rfl
  · decide

/-- C3 amended: on every input with zero properties and zero composition
entries, `NewSchema` skips the awaiting phase and returns under every
valid execution, and the resulting `Properties` map and five composition
slices are the nil zero values (length-zero, but absent rather than
constructed-empty containers). -/
theorem C3_zero_entries_skips_await (s : LowSchema) (sch : Sched) (hv : sch.Valid s)
    (hp : totalProps s = 0) (hc : totalChildren s = 0) :
    NewSchema s sch = some (buildResult s sch) ∧
    (buildResult s sch).Properties = none ∧
    (∀ k, schemaComp (buildResult s sch) k = none) := by
  have hsrc : ∀ k, srcComp s k = [] := by
    intro k
    have hc2 := hc
    unfold totalChildren at hc2
    apply List.length_eq_zero.mp
    cases k <;> omega
  have hret : NewSchemaReturns s sch = true := by
    unfold NewSchemaReturns
    rw [hp, hc]
    rfl
  refine ⟨by unfold NewSchema; rw [hret]; rfl, ?_, ?_⟩
  · show propsResult s sch = none
    unfold propsResult
    have : s.Properties.Value = [] := List.length_eq_zero.mp hp
    rw [this]
  · intro k
    have harr : sch.arr k = [] := by
      have := hv.1 k
      rw [hsrc k] at this
      exact List.perm_nil.mp this
    have hres : schemaComp (buildResult s sch) k = compResult s sch k := by
      cases k <;> rfl
    rw [hres]
    unfold compResult
    by_cases hd : dispatched s k = true
    · rw [if_pos hd, harr]
      simp
    · rw [if_neg hd]

/-- Witness for C3 amended: the all-absent schema with the empty execution
satisfies the hypotheses and returns with nil containers. -/
theorem C3_witness :
    NewSchema lowEmpty schedEmpty = some (buildResult lowEmpty schedEmpty) ∧
    (buildResult lowEmpty schedEmpty).Properties = none :=
  ⟨(C3_zero_entries_skips_await lowEmpty schedEmpty (by decide) rfl rfl).1,
    (C3_zero_entries_skips_await lowEmpty schedEmpty (by decide) rfl rfl).2.1⟩

/-- C6: the canonical exclusivity fields retain both dialect forms without
collapse: a populated boolean form sets only the boolean field, a populated
numeric form sets only the numeric field, and when neither variant is
present both canonical fields keep their zero values. -/
theorem C6_exclusive_bounds_no_collapse (s : LowSchema) (sch : Sched) (h : Schema)
    (hr : NewSchema s sch = some h) :
    (s.ExclusiveMaximum.IsEmpty = false ∧ s.ExclusiveMaximum.Value.IsA = true →
      h.ExclusiveMaximumBool = s.ExclusiveMaximum.Value.A ∧ h.ExclusiveMaximum = 0) ∧
    (s.ExclusiveMaximum.IsEmpty = false ∧ s.ExclusiveMaximum.Value.IsB = true →
      h.ExclusiveMaximum = s.ExclusiveMaximum.Value.B ∧ h.ExclusiveMaximumBool = false) ∧
    (s.ExclusiveMaximum.IsEmpty = true ∨
        (s.ExclusiveMaximum.Value.IsA = false ∧ s.ExclusiveMaximum.Value.IsB = false) →
      h.ExclusiveMaximumBool = false ∧ h.ExclusiveMaximum = 0) ∧
    (s.ExclusiveMinimum.IsEmpty = false ∧ s.ExclusiveMinimum.Value.IsA = true →
      h.ExclusiveMinimumBool = s.ExclusiveMinimum.Value.A ∧ h.ExclusiveMinimum = 0) ∧
    (s.ExclusiveMinimum.IsEmpty = false ∧ s.ExclusiveMinimum.Value.IsB = true →
      h.ExclusiveMinimum = s.ExclusiveMinimum.Value.B ∧ h.ExclusiveMinimumBool = false) ∧
    (s.ExclusiveMinimum.IsEmpty = true ∨
        (s.ExclusiveMinimum.Value.IsA = false ∧ s.ExclusiveMinimum.Value.IsB = false) →
      h.ExclusiveMinimumBool = false ∧ h.ExclusiveMinimum = 0) := by
  rw [NewSchema_some s sch h hr]
  refine ⟨fun hc => ?_, fun hc => ?_, fun hc => ?_, fun hc => ?_, fun hc => ?_, fun hc => ?_⟩
  · obtain ⟨h1, h2⟩ := hc
    constructor
    · show (if !s.ExclusiveMaximum.IsEmpty && s.ExclusiveMaximum.Value.IsA then
          s.ExclusiveMaximum.Value.A else false) = s.ExclusiveMaximum.Value.A
      rw [h1, h2]
      rfl
    · show (if !s.ExclusiveMaximum.IsEmpty && s.ExclusiveMaximum.Value.IsB then
          s.ExclusiveMaximum.Value.B else 0) = 0
      rw [h1, isA_isB_exclusive _ h2]
      rfl
  · obtain ⟨h1, h2⟩ := hc
    constructor
    · show (if !s.ExclusiveMaximum.IsEmpty && s.ExclusiveMaximum.Value.IsB then
          s.ExclusiveMaximum.Value.B else 0) = s.ExclusiveMaximum.Value.B
      rw [h1, h2]
      rfl
    · show (if !s.ExclusiveMaximum.IsEmpty && s.ExclusiveMaximum.Value.IsA then
          s.ExclusiveMaximum.Value.A else false) = false
      rw [h1, isB_isA_exclusive _ h2]
      rfl
  · rcases hc with h1 | ⟨h1, h2⟩
    · constructor
      · show (if !s.ExclusiveMaximum.IsEmpty && s.ExclusiveMaximum.Value.IsA then
            s.ExclusiveMaximum.Value.A else false) = false
        rw [h1]
        rfl
      · show (if !s.ExclusiveMaximum.IsEmpty && s.ExclusiveMaximum.Value.IsB then
            s.ExclusiveMaximum.Value.B else 0) = 0
        rw [h1]
        rfl
    · constructor
      · show (if !s.ExclusiveMaximum.IsEmpty && s.ExclusiveMaximum.Value.IsA then
            s.ExclusiveMaximum.Value.A else false) = false
        rw [h1]
        simp
      · show (if !s.ExclusiveMaximum.IsEmpty && s.ExclusiveMaximum.Value.IsB then
            s.ExclusiveMaximum.Value.B else 0) = 0
        rw [h2]
        simp
  · obtain ⟨h1, h2⟩ := hc
    constructor
    · show (if !s.ExclusiveMinimum.IsEmpty && s.ExclusiveMinimum.Value.IsA then
          s.ExclusiveMinimum.Value.A else false) = s.ExclusiveMinimum.Value.A
      rw [h1, h2]
      rfl
    · show (if !s.ExclusiveMinimum.IsEmpty && s.ExclusiveMinimum.Value.IsB then
          s.ExclusiveMinimum.Value.B else 0) = 0
      rw [h1, isA_isB_exclusive _ h2]
      rfl
  · obtain ⟨h1, h2⟩ := hc
    constructor
    · show (if !s.ExclusiveMinimum.IsEmpty && s.ExclusiveMinimum.Value.IsB then
          s.ExclusiveMinimum.Value.B else 0) = s.ExclusiveMinimum.Value.B
      rw [h1, h2]
      rfl
    · show (if !s.ExclusiveMinimum.IsEmpty && s.ExclusiveMinimum.Value.IsA then
          s.ExclusiveMinimum.Value.A else false) = false
      rw [h1, isB_isA_exclusive _ h2]
      rfl
  · rcases hc with h1 | ⟨h1, h2⟩
    · constructor
      · show (if !s.ExclusiveMinimum.IsEmpty && s.ExclusiveMinimum.Value.IsA then
            s.ExclusiveMinimum.Value.A else false) = false
        rw [h1]
        rfl
      · show (if !s.ExclusiveMinimum.IsEmpty && s.ExclusiveMinimum.Value.IsB then
            s.ExclusiveMinimum.Value.B else 0) = 0
        rw [h1]
        rfl
    · constructor
      · show (if !s.ExclusiveMinimum.IsEmpty && s.ExclusiveMinimum.Value.IsA then
            s.ExclusiveMinimum.Value.A else false) = false
        rw [h1]
        simp
      · show (if !s.ExclusiveMinimum.IsEmpty && s.ExclusiveMinimum.Value.IsB then
            s.ExclusiveMinimum.Value.B else 0) = 0
        rw [h2]
        simp

/-- The spec's own exclusivity test vector: a boolean-form exclusive
maximum of true next to a numeric maximum of 10, and a numeric-form
exclusive minimum of 5. -/
def sC6 : LowSchema :=
  { lowEmpty with
      Maximum := presentNode 10
      ExclusiveMaximum := presentNode { N := 0, A := true, B := 0 }
      ExclusiveMinimum := presentNode { N := 1, A := false, B := 5 } }

/-- Witness for C6 at the spec's test vector. -/
theorem C6_witness :
    (NewSchema sC6 schedEmpty).map
        (fun h => (h.ExclusiveMaximumBool, h.ExclusiveMaximum, h.ExclusiveMinimum,
          h.ExclusiveMinimumBool)) =
      some (true, 0, 5, false) := by
  cases hEq : NewSchema sC6 schedEmpty with
  | none => exact absurd hEq (by decide)
  | some h =>
    obtain ⟨hA, hB, hN, hA2, hB2, hN2⟩ := C6_exclusive_bounds_no_collapse sC6 schedEmpty h hEq
    obtain ⟨e1, e2⟩ := hA (by decide)
    obtain ⟨e3, e4⟩ := hB2 (by decide)
    simp only [Option.map_some']
    rw [e1, e2, e3, e4]
    rfl

/-- C7: a present single-string (3.0) type yields the one-element sequence,
and a present list-form (3.1) type yields exactly the source values in
source order. -/
theorem C7_type_dialect_normalization (s : LowSchema) (sch : Sched) (h : Schema)
    (hr : NewSchema s sch = some h) :
    (s.Type'.IsEmpty = false ∧ s.Type'.Value.IsA = true → h.Type' = [s.Type'.Value.A]) ∧
    (s.Type'.IsEmpty = false ∧ s.Type'.Value.IsB = true →
      h.Type' = s.Type'.Value.B.map (fun v => v.Value)) := by
  rw [NewSchema_some s sch h hr]
  constructor
  · intro hc
    obtain ⟨h1, h2⟩ := hc
    show typeNorm s = [s.Type'.Value.A]
    unfold typeNorm
    rw [h1, h2, isA_isB_exclusive _ h2]
    rfl
  · intro hc
    obtain ⟨h1, h2⟩ := hc
    show typeNorm s = s.Type'.Value.B.map (fun v => v.Value)
    unfold typeNorm
    rw [h1, h2, isB_isA_exclusive _ h2]
    rfl

/-- A low-level schema whose type field uses the 3.1 list form. -/
def sC7 : LowSchema :=
  { lowEmpty with
      Type' := presentNode
        { N := 1, A := "",
          B := [{ Value := "string", ValueNode := some 1 },
            { Value := "null", ValueNode := some 2 }] } }

/-- Witness for C7 at the spec's list-form test vector. -/
theorem C7_witness : (NewSchema sC7 schedEmpty).map (fun h => h.Type') =
    some ["string", "null"] := by
  cases hEq : NewSchema sC7 schedEmpty with
  | none => exact absurd hEq (by decide)
  | some h =>
    obtain ⟨-, hB⟩ := C7_type_dialect_normalization sC7 schedEmpty h hEq
    simp only [Option.map_some']
    rw [hB (by decide)]
    rfl

/-- Counterexample to C8: the claim says the resulting type sequence is
non-empty even when the source type field is absent, but on the all-absent
schema `NewSchema` returns a schema whose type sequence is empty (the Go
slice is never appended to). -/
theorem C8_absent_type_gives_empty_sequence :
    (NewSchema lowEmpty schedEmpty).map (fun h => h.Type') = some [] ∧
    lowEmpty.Type'.IsEmpty = true := ⟨rfl, rfl⟩

/-- C8 amended: the resulting type sequence is non-empty exactly when the
source type field is present and its populated dialect variant carries at
least one value; when the type field is absent (or populated with neither
variant) the sequence is empty. -/
theorem C8_type_nonempty_iff (s : LowSchema) (sch : Sched) (h : Schema)
    (hr : NewSchema s sch = some h) :
    h.Type' ≠ [] ↔
      s.Type'.IsEmpty = false ∧
        (s.Type'.Value.IsA = true ∨ (s.Type'.Value.IsB = true ∧ s.Type'.Value.B ≠ [])) := by
  rw [NewSchema_some s sch h hr]
  show typeNorm s ≠ [] ↔ _
  unfold typeNorm
  cases hE : s.Type'.IsEmpty with
  | true => simp [hE]
  | false =>
    cases hA : s.Type'.Value.IsA with
    | true =>
      rw [isA_isB_exclusive _ hA]
      simp [hA]
    | false =>
      cases hB : s.Type'.Value.IsB with
      | true => simp [hA, hB]
      | false => simp [hA, hB]

/-- Witness for C8 amended at the list-form test vector. -/
theorem C8_witness :
    (NewSchema sC7 schedEmpty).map (fun h => decide (h.Type' ≠ [])) = some true := by
  cases hEq : NewSchema sC7 schedEmpty with
  | none => exact absurd hEq (by decide)
  | some h =>
    have hiff := C8_type_nonempty_iff sC7 schedEmpty h hEq
    have hne : h.Type' ≠ [] := hiff.mpr (by decide)
    simp only [Option.map_some']
    rw [decide_eq_true hne]

/-- Modelled from the spec: a low-level tree is well formed when an absent
scalar field carries its type's zero value — the upstream parser only
populates `Value` for fields present in the document. -/
def LowWF (s : LowSchema) : Prop :=
  (s.Title.ValueNode = none → s.Title.Value = "") ∧
  (s.MultipleOf.ValueNode = none → s.MultipleOf.Value = 0) ∧
  (s.Maximum.ValueNode = none → s.Maximum.Value = 0) ∧
  (s.Minimum.ValueNode = none → s.Minimum.Value = 0) ∧
  (s.MaxLength.ValueNode = none → s.MaxLength.Value = 0) ∧
  (s.MinLength.ValueNode = none → s.MinLength.Value = 0) ∧
  (s.Pattern.ValueNode = none → s.Pattern.Value = "") ∧
  (s.Format.ValueNode = none → s.Format.Value = "") ∧
  (s.MaxItems.ValueNode = none → s.MaxItems.Value = 0) ∧
  (s.MinItems.ValueNode = none → s.MinItems.Value = 0) ∧
  (s.MaxProperties.ValueNode = none → s.MaxProperties.Value = 0) ∧
  (s.MinProperties.ValueNode = none → s.MinProperties.Value = 0)

instance instLowWFDecidable (s : LowSchema) : Decidable (LowWF s) := by
  unfold LowWF
  infer_instance

/-- Counterexample to C9: the claim lists `UniqueItems` among the scalar
fields copied verbatim, but `NewSchema` never assigns `s.UniqueItems`;
with a present source value of 7 the resulting field is still 0. -/
theorem C9_uniqueItems_never_copied :
    (NewSchema { lowEmpty with UniqueItems := presentNode 7 } schedEmpty).map
        (fun h => h.UniqueItems) = some 0 ∧
    ({ lowEmpty with UniqueItems := presentNode 7 } : LowSchema).UniqueItems.Value = 7 ∧
    ({ lowEmpty with UniqueItems := presentNode 7 } : LowSchema).UniqueItems.IsEmpty = false :=
  ⟨rfl, rfl, rfl⟩

/-- C9 amended: on a well-formed low-level tree every scalar constraint
field except `UniqueItems` is copied verbatim when present and keeps its
zero value when absent; `UniqueItems` is never assigned and is always 0. -/
theorem C9_scalars_copied_verbatim (s : LowSchema) (sch : Sched) (h : Schema)
    (hwf : LowWF s) (hr : NewSchema s sch = some h) :
    (h.Title = s.Title.Value ∧ (s.Title.ValueNode = none → h.Title = "")) ∧
    (h.MultipleOf = s.MultipleOf.Value ∧ (s.MultipleOf.ValueNode = none → h.MultipleOf = 0)) ∧
    (h.Maximum = s.Maximum.Value ∧ (s.Maximum.ValueNode = none → h.Maximum = 0)) ∧
    (h.Minimum = s.Minimum.Value ∧ (s.Minimum.ValueNode = none → h.Minimum = 0)) ∧
    (h.MaxLength = s.MaxLength.Value ∧ (s.MaxLength.ValueNode = none → h.MaxLength = 0)) ∧
    (h.MinLength = s.MinLength.Value ∧ (s.MinLength.ValueNode = none → h.MinLength = 0)) ∧
    (h.Pattern = s.Pattern.Value ∧ (s.Pattern.ValueNode = none → h.Pattern = "")) ∧
    (h.Format = s.Format.Value ∧ (s.Format.ValueNode = none → h.Format = "")) ∧
    (h.MaxItems = s.MaxItems.Value ∧ (s.MaxItems.ValueNode = none → h.MaxItems = 0)) ∧
    (h.MinItems = s.MinItems.Value ∧ (s.MinItems.ValueNode = none → h.MinItems = 0)) ∧
    (h.MaxProperties = s.MaxProperties.Value ∧
      (s.MaxProperties.ValueNode = none → h.MaxProperties = 0)) ∧
    (h.MinProperties = s.MinProperties.Value ∧
      (s.MinProperties.ValueNode = none → h.MinProperties = 0)) ∧
    h.UniqueItems = 0 := by
  rw [NewSchema_some s sch h hr]
  obtain ⟨w1, w2, w3, w4, w5, w6, w7, w8, w9, w10, w11, w12⟩ := hwf
  exact ⟨⟨rfl, w1⟩, ⟨rfl, w2⟩, ⟨rfl, w3⟩, ⟨rfl, w4⟩, ⟨rfl, w5⟩, ⟨rfl, w6⟩, ⟨rfl, w7⟩,
    ⟨rfl, w8⟩, ⟨rfl, w9⟩, ⟨rfl, w10⟩, ⟨rfl, w11⟩, ⟨rfl, w12⟩, rfl⟩

/-- A low-level schema with a present title and maximum and all other
scalar fields absent. -/
def sC9 : LowSchema :=
  { lowEmpty with Title := presentNode "t", Maximum := presentNode 10 }

/-- Witness for C9 amended: present fields are copied, absent fields stay
zero, and `UniqueItems` is 0. -/
theorem C9_witness :
    (NewSchema sC9 schedEmpty).map
        (fun h => (h.Title, h.Maximum, h.Pattern, h.UniqueItems)) =
      some ("t", 10, "", 0) := by
  cases hEq : NewSchema sC9 schedEmpty with
  | none => exact absurd hEq (by decide)
  | some h =>
    obtain ⟨hT, -, hM, -, -, -, hP, -, -, -, -, -, hU⟩ :=
      C9_scalars_copied_verbatim sC9 schedEmpty h (by decide) hEq
    simp only [Option.map_some']
    rw [hT.1, hM.1, hP.2 rfl, hU]
    rfl

/-- When the awaiting loop breaks under a valid execution and every present
composition collection is non-empty, counting forces every dispatched
collection to hold exactly one entry and to have had its single completion
signal consumed: the loop needs `totalChildren` poly signals but each
dispatched collection sends only one. -/
theorem comp_counts (s : LowSchema) (sch : Sched) (hv : sch.Valid s)
    (hne : ∀ k, dispatched s k = true → srcComp s k ≠ [])
    (n : Nat) (hrun : awaitRun (totalProps s) (totalChildren s) 0 0 sch.events = some n) :
    ∀ k, ((sch.events.take n).count (Ev.poly k) = if dispatched s k then 1 else 0) ∧
      ((srcComp s k).length = if dispatched s k then 1 else 0) := by
  obtain ⟨hperm, hobs, hpp, hcp, hcpoly⟩ := hv
  obtain ⟨hn, hcount, hcpoly2⟩ := awaitRun_spec _ _ sch.events 0 0 n hrun
  have hsum := countPoly_eq_sum (sch.events.take n)
  have hb : ∀ k, (sch.events.take n).count (Ev.poly k) ≤ (if dispatched s k then 1 else 0) := by
    intro k
    rw [← hcpoly k]
    exact (List.take_sublist n sch.events).count_le _
  have hl : ∀ k, (if dispatched s k then 1 else 0) ≤ (srcComp s k).length := by
    intro k
    cases hd : dispatched s k with
    | false => simp
    | true => simpa using List.length_pos.mpr (hne k hd)
  have htc : countPoly (sch.events.take n) = totalChildren s := by omega
  rw [hsum] at htc
  unfold totalChildren at htc
  have hb1 := hb .allOf
  have hb2 := hb .oneOf
  have hb3 := hb .anyOf
  have hb4 := hb .items
  have hb5 := hb .nots
  have hl1 := hl .allOf
  have hl2 := hl .oneOf
  have hl3 := hl .anyOf
  have hl4 := hl .items
  have hl5 := hl .nots
  set i1 := (if dispatched s CompKind.allOf then 1 else 0) with hi1
  set i2 := (if dispatched s CompKind.oneOf then 1 else 0) with hi2
  set i3 := (if dispatched s CompKind.anyOf then 1 else 0) with hi3
  set i4 := (if dispatched s CompKind.items then 1 else 0) with hi4
  set i5 := (if dispatched s CompKind.nots then 1 else 0) with hi5
  intro k
  cases k
  · exact ⟨by omega, by omega⟩
  · exact ⟨by omega, by omega⟩
  · exact ⟨by omega, by omega⟩
  · exact ⟨by omega, by omega⟩
  · exact ⟨by omega, by omega⟩

/-- C2 amended: whenever `NewSchema` returns and every present composition
collection is non-empty, each of the five composition slices of the result
holds exactly the proxies of its source entries, in source order,
regardless of the relative completion order of the dispatched units. -/
theorem C2_composition_order (s : LowSchema) (sch : Sched) (h : Schema)
    (hv : sch.Valid s) (hne : ∀ k, dispatched s k = true → srcComp s k ≠ [])
    (hr : NewSchema s sch = some h) (k : CompKind) :
    sliceList (schemaComp h k) = (srcComp s k).map buildSchemaChild ∧
    (sliceList (schemaComp h k)).length = (srcComp s k).length := by
  suffices hmain : sliceList (schemaComp h k) = (srcComp s k).map buildSchemaChild by
    refine ⟨hmain, ?_⟩
    rw [hmain, List.length_map]
  have hret : NewSchemaReturns s sch = true := by
    by_contra hc
    rw [Bool.not_eq_true] at hc
    unfold NewSchema at hr
    simp [hc] at hr
  have hb := NewSchema_some s sch h hr
  subst hb
  have hres : schemaComp (buildResult s sch) k = compResult s sch k := by
    cases k <;> rfl
  rw [hres]
  unfold NewSchemaReturns at hret
  rw [Bool.or_eq_true] at hret
  rcases hret with hz | hrun
  · rw [beq_iff_eq] at hz
    have hc0 : totalChildren s = 0 := by omega
    have hsrck : srcComp s k = [] := by
      unfold totalChildren at hc0
      apply List.length_eq_zero.mp
      cases k <;> omega
    have harr : sch.arr k = [] := by
      have hp := hv.1 k
      rw [hsrck] at hp
      exact List.perm_nil.mp hp
    unfold compResult
    rw [hsrck]
    by_cases hd : dispatched s k = true
    · rw [if_pos hd, harr]
      simp [sliceList]
    · rw [if_neg hd]
      simp [sliceList]
  · rw [Option.isSome_iff_exists] at hrun
    obtain ⟨n, hrun⟩ := hrun
    have hcounts := comp_counts s sch hv hne n hrun
    obtain ⟨hck, hlk⟩ := hcounts k
    by_cases hd : dispatched s k = true
    · rw [if_pos hd] at hck hlk
      obtain ⟨x, hx⟩ := List.length_eq_one.mp hlk
      have harr : sch.arr k = [x] := by
        apply List.perm_singleton.mp
        rw [← hx]
        exact hv.1 k
      have hguard : (totalProps s + totalChildren s == 0) = false := by
        rw [beq_eq_false_iff_ne]
        have : 1 ≤ totalChildren s := by
          unfold totalChildren
          revert hlk
          cases k <;> (intro hlk; omega)
        omega
      have hdone : compDone s sch k = true := by
        unfold compDone consumedEvents
        rw [hguard]
        simp only [Bool.false_eq_true, if_false]
        rw [hrun]
        simp [hck]
      unfold compResult
      rw [if_pos hd, hdone]
      simp only [if_true]
      rw [harr, hx]
      rfl
    · rw [if_neg hd] at hlk
      have hsrck : srcComp s k = [] := List.length_eq_zero.mp hlk
      unfold compResult
      rw [if_neg hd, hsrck]
      rfl

/-- A low-level schema whose `allOf` is present but empty and whose
`oneOf` holds one entry. -/
def sC2 : LowSchema :=
  { lowEmpty with
      AllOf := presentNode []
      OneOf := presentNode [{ Value := some 1, ValueNode := some 10 }] }

/-- The execution in which the empty `allOf` collection reports completion
before the `oneOf` unit has appended anything: the await loop then breaks
(one signal consumed equals `totalChildren = 1`) while `oneOf` is still
unwritten. -/
def schedC2 : Sched where
  arr := fun k => match k with | .oneOf => sC2.OneOf.Value | _ => []
  obs := fun _ => 0
  arrProps := []
  events := [Ev.poly .allOf, Ev.poly .oneOf]

/-- Counterexample to C2 as stated: under a valid execution of `NewSchema`
on `sC2`, the call returns with a `OneOf` slice of length 0 although the
source `oneOf` array has length 1 — the completion signal of the
present-but-empty `allOf` collection satisfies the entry-counting await
loop early. -/
theorem C2_counterexample :
    (NewSchema sC2 schedC2).map (fun h => (sliceList h.OneOf).length) = some 0 ∧
    sC2.OneOf.Value.length = 1 ∧
    schedC2.Valid sC2 := ⟨rfl, rfl, by decide⟩

/-- A low-level schema with a single-entry `oneOf` and all else absent. -/
def sC2w : LowSchema :=
  { lowEmpty with OneOf := presentNode [{ Value := some 1, ValueNode := some 10 }] }

/-- The only execution of `NewSchema sC2w`. -/
def schedC2w : Sched where
  arr := fun k => match k with | .oneOf => sC2w.OneOf.Value | _ => []
  obs := fun _ => 0
  arrProps := []
  events := [Ev.poly .oneOf]

/-- Witness for C2 amended at a concrete single-entry input. -/
theorem C2_witness :
    (NewSchema sC2w schedC2w).map (fun h => sliceList h.OneOf) =
      some (sC2w.OneOf.Value.map buildSchemaChild) := by
  cases hEq : NewSchema sC2w schedC2w with
  | none => exact absurd hEq (by decide)
  | some h =>
    have hc :=
      (C2_composition_order sC2w schedC2w h (by decide) (by decide) hEq CompKind.oneOf).1
    simp only [Option.map_some']
    rw [show sliceList h.OneOf = sliceList (schemaComp h CompKind.oneOf) from rfl, hc]
    rfl

/-- C4: whenever `NewSchema` returns, the `Properties` map holds exactly one
binding per source property entry — the bindings are a permutation of the
proxied source entries, so the sizes agree, every source key appears bound
to the proxy wrapping exactly that entry's reference, and each proxy's
presence flag matches its source entry's presence flag. -/
theorem C4_properties_complete (s : LowSchema) (sch : Sched) (h : Schema)
    (hv : sch.Valid s)
    (hnd : (s.Properties.Value.map (fun kv => kv.1.Value)).Nodup)
    (hr : NewSchema s sch = some h) :
    List.Perm (mapList h.Properties)
        (s.Properties.Value.map (fun kv => (kv.1.Value, buildPropsEntry kv.1 kv.2))) ∧
    (mapList h.Properties).length = s.Properties.Value.length ∧
    (∀ kv ∈ s.Properties.Value,
      (kv.1.Value, buildPropsEntry kv.1 kv.2) ∈ mapList h.Properties ∧
        (buildPropsEntry kv.1 kv.2).schema.ValueNode.isSome = kv.2.present) := by
  have hb := NewSchema_some s sch h hr
  subst hb
  show List.Perm (mapList (propsResult s sch)) _ ∧ _ ∧ _
  have hpp : List.Perm sch.arrProps s.Properties.Value := hv.2.2.1
  have hperm : List.Perm (mapList (propsResult s sch))
      (s.Properties.Value.map fun kv => (kv.1.Value, buildPropsEntry kv.1 kv.2)) := by
    unfold propsResult
    cases hsv : s.Properties.Value with
    | nil =>
      rw [hsv] at hpp
      simp [mapList]
    | cons a rest =>
      rw [hsv] at hpp
      simp only [mapList, Option.getD_some]
      have hkeys :
          (((sch.arrProps.map fun kv => (kv.1.Value, buildPropsEntry kv.1 kv.2)).map
            Prod.fst)).Nodup := by
        have h2 : List.Perm (sch.arrProps.map fun kv => kv.1.Value)
            ((a :: rest).map fun kv => kv.1.Value) := hpp.map _
        have h3 : (sch.arrProps.map fun kv => kv.1.Value).Nodup := by
          rw [h2.nodup_iff]
          rw [← hsv]
          exact hnd

        simpa [List.map_map, Function.comp] using h3
      rw [goMapOfList_eq_self _ hkeys]
      exact hpp.map _
  refine ⟨hperm, ?_, ?_⟩
  · have hlen := hperm.length_eq
    rw [List.length_map] at hlen
    exact hlen
  · intro kv hkv
    refine ⟨?_, rfl⟩
    have hmem : (kv.1.Value, buildPropsEntry kv.1 kv.2) ∈
        s.Properties.Value.map (fun kv => (kv.1.Value, buildPropsEntry kv.1 kv.2)) :=
      List.mem_map_of_mem _ hkv
    exact (hperm.mem_iff).mpr hmem

/-- A low-level schema with two properties and all else absent. -/
def sC4 : LowSchema :=
  { lowEmpty with
      Properties := presentNode
        [({ Value := "a", KeyNode := some 1 }, { Value := some 2, ValueNode := some 3 }),
          ({ Value := "b", KeyNode := some 4 }, { Value := none, ValueNode := none })] }

/-- An execution of `NewSchema sC4` in which the second property's
goroutine takes the mutex first. -/
def schedC4 : Sched where
  arr := fun _ => []
  obs := fun _ => 0
  arrProps := [({ Value := "b", KeyNode := some 4 }, { Value := none, ValueNode := none }),
    ({ Value := "a", KeyNode := some 1 }, { Value := some 2, ValueNode := some 3 })]
  events := [Ev.prop, Ev.prop]

/-- Witness for C4: both property entries of `sC4` survive into the result
map regardless of insert order, and the absent-valued entry still produces
a proxy whose presence flag is false. -/
theorem C4_witness :
    (NewSchema sC4 schedC4).map (fun h => (mapList h.Properties).length) = some 2 := by
  cases hEq : NewSchema sC4 schedC4 with
  | none => exact absurd hEq (by decide)
  | some h =>
    have hc := (C4_properties_complete sC4 schedC4 h (by decide) (by decide) hEq).2.1
    simp only [Option.map_some']
    rw [hc]
    rfl

/-- Every proxy reachable from a finished schema: the values of the
properties map and the five composition slices. -/
def allProxies (h : Schema) : List SchemaProxy :=
  (mapList h.Properties).map Prod.snd ++ sliceList h.AllOf ++ sliceList h.OneOf ++
    sliceList h.AnyOf ++ sliceList h.Not ++ sliceList h.Items

/-- Every proxy in a composition slice is a plain `buildSchemaChild`
wrapper, so its materialization cache is empty. -/
theorem compResult_rendered (s : LowSchema) (sch : Sched) (k : CompKind) (p : SchemaProxy)
    (hp : p ∈ sliceList (compResult s sch k)) : p.rendered = none := by
  unfold compResult at hp
  by_cases hd : dispatched s k = true
  · rw [if_pos hd] at hp
    cases hml : (if compDone s sch k then sch.arr k else (sch.arr k).take (sch.obs k)).map
        buildSchemaChild with
    | nil =>
      rw [hml] at hp
      simp [sliceList] at hp
    | cons q qs =>
      rw [hml] at hp
      simp only [sliceList, Option.getD_some] at hp
      have hmem : p ∈ (if compDone s sch k then sch.arr k
          else (sch.arr k).take (sch.obs k)).map buildSchemaChild := by
        rw [hml]
        exact hp
      obtain ⟨y, -, hy⟩ := List.mem_map.mp hmem
      rw [← hy]
      rfl
  · rw [if_neg hd] at hp
    simp [sliceList] at hp

/-- Every proxy in the finished properties map is a plain
`buildPropsEntry` wrapper, so its materialization cache is empty. -/
theorem propsResult_rendered (s : LowSchema) (sch : Sched) (p : SchemaProxy)
    (hp : p ∈ (mapList (propsResult s sch)).map Prod.snd) : p.rendered = none := by
  unfold propsResult at hp
  cases hsv : s.Properties.Value with
  | nil =>
    rw [hsv] at hp
    simp [mapList] at hp
  | cons a rest =>
    rw [hsv] at hp
    simp only [mapList, Option.getD_some] at hp
    obtain ⟨kv, hkv, hkvp⟩ := List.mem_map.mp hp
    have h2 := mem_goMapOfList _ _ hkv
    obtain ⟨kw, -, hkw⟩ := List.mem_map.mp h2
    rw [← hkvp, ← hkw]
    rfl

/-- C5: `NewSchema` never materializes a nested schema — every proxy it
stores into the result (property values and all five composition slices)
is a constant-size wrapper around the source entry's low-level reference
whose materialization cache is still empty; `NewSchema` is never invoked
on a wrapped nested schema, so a cyclic nesting cannot recurse. -/
theorem C5_no_recursive_materialization (s : LowSchema) (sch : Sched) (h : Schema)
    (hr : NewSchema s sch = some h) :
    ∀ p ∈ allProxies h, p.rendered = none := by
  have hb := NewSchema_some s sch h hr
  subst hb
  intro p hp
  unfold allProxies at hp
  rcases List.mem_append.mp hp with hp1 | hp1
  rcases List.mem_append.mp hp1 with hp2 | hp2
  rcases List.mem_append.mp hp2 with hp3 | hp3
  rcases List.mem_append.mp hp3 with hp4 | hp4
  rcases List.mem_append.mp hp4 with hp5 | hp5
  · exact propsResult_rendered s sch p hp5
  · exact compResult_rendered s sch .allOf p hp5
  · exact compResult_rendered s sch .oneOf p hp4
  · exact compResult_rendered s sch .anyOf p hp3
  · exact compResult_rendered s sch .nots p hp2
  · exact compResult_rendered s sch .items p hp1

/-- A low-level schema with one property and one `allOf` entry. -/
def sC5 : LowSchema :=
  { lowEmpty with
      Properties := presentNode
        [({ Value := "p", KeyNode := some 1 }, { Value := some 2, ValueNode := some 3 })]
      AllOf := presentNode [{ Value := some 4, ValueNode := some 5 }] }

/-- An execution of `NewSchema sC5`. -/
def schedC5 : Sched where
  arr := fun k => match k with | .allOf => sC5.AllOf.Value | _ => []
  obs := fun _ => 0
  arrProps := sC5.Properties.Value
  events := [Ev.prop, Ev.poly .allOf]

/-- Witness for C5: on a schema with a property and an `allOf` entry,
every stored proxy is unmaterialized. -/
theorem C5_witness :
    (NewSchema sC5 schedC5).map
        (fun h => (allProxies h).all fun p => p.rendered == none) = some true := by
  cases hEq : NewSchema sC5 schedC5 with
  | none => exact absurd hEq (by decide)
  | some h =>
    have hall := C5_no_recursive_materialization sC5 schedC5 h hEq
    simp only [Option.map_some']
    congr 1
    rw [List.all_eq_true]
    intro p hp
    rw [hall p hp]
    rfl

end LibOpenAPI
